import Mathlib

/-
  Verification of the Holon core (Flow composition, immutable Context,
  effect tracking) against its specification.

  The embedding translates the TypeScript sources:
    - packages/flow/src/flow.ts        (flow, pipe, identity, mergeMetadata)
    - context implementation           (ImmutableContext: get/with/fork/freeze)
    - packages/effects/src/index.ts    (effectful, pure, hasEffect, isPure,
                                        combineEffects, EffectInterpreter.run)

  JavaScript call results are modelled by `Comp`: a value or a thrown error,
  delivered either synchronously or through a promise.  A promise `.then`
  always yields a promise and flattens nested promises, which `Comp.settle`
  captures.
-/

namespace Holon

/-- Result of calling a JS function: a synchronous value, a synchronously
thrown error, a resolved promise, or a rejected promise. -/
inductive Comp (β : Type) where
  | sync : β → Comp β
  | syncErr : String → Comp β
  | async : β → Comp β
  | asyncErr : String → Comp β
deriving DecidableEq, Repr

/-- Coerce a result into promise form, as done by returning it from a
`.then` callback or an `async` function: values resolve, errors reject,
promises flatten. -/
def Comp.settle : Comp β → Comp β
  | .sync b => .async b
  | .syncErr e => .asyncErr e
  | .async b => .async b
  | .asyncErr e => .asyncErr e

/-- The awaited outcome of a computation: its value once any promise has
completed, or the thrown/rejected error. -/
def Comp.result : Comp β → Except String β
  | .sync b => .ok b
  | .syncErr e => .error e
  | .async b => .ok b
  | .asyncErr e => .error e

/-- Performance hints inside Flow metadata (`FlowMeta.performance` in
types.ts).  Absent properties are `none`. -/
structure Performance where
  pure : Option Bool
  memoizable : Option Bool
deriving DecidableEq, Repr

/-- Flow metadata as used by `flow.ts`: an optional name, optional
performance hints and an optional tag list. -/
structure FlowMeta where
  name : Option String
  performance : Option Performance
  tags : Option (List String)
deriving DecidableEq, Repr

/-- `mergeMetadata` from flow.ts lines 382-431.  Spread `{...meta1, ...meta2}`
lets `meta2`'s present properties win; then `performance.pure` and
`performance.memoizable` are ANDed when both sides define them, and tag
arrays are concatenated when either side has tags. -/
def mergeMetadata : Option FlowMeta → Option FlowMeta → Option FlowMeta
  | none, none => none
  | none, some m2 => some m2
  | some m1, none => some m1
  | some m1, some m2 =>
    let base : FlowMeta :=
      { name := m2.name <|> m1.name
        performance := m2.performance <|> m1.performance
        tags := m2.tags <|> m1.tags }
    let base :=
      if m1.performance.isSome || m2.performance.isSome then
        { base with performance := some (Performance.mk
            (match m1.performance.bind Performance.pure,
                   m2.performance.bind Performance.pure with
             | some a, some b => some (a && b)
             | some a, none => some a
             | none, some b => some b
             | none, none => none)
            (match m1.performance.bind Performance.memoizable,
                   m2.performance.bind Performance.memoizable with
             | some a, some b => some (a && b)
             | some a, none => some a
             | none, some b => some b
             | none, none => none)) }
      else base
    let base :=
      if m1.tags.isSome || m2.tags.isSome then
        { base with tags := some (m1.tags.getD [] ++ m2.tags.getD []) }
      else base
    some base

/-- A Flow: a callable from `α` to a (possibly pending) `β`, carrying
optional metadata.  `fn` is the call behavior of the flow function built
by `flow()`, including any `onError` wrapping done there. -/
structure Flow (α β : Type) where
  fn : α → Comp β
  meta : Option FlowMeta

/-- The body of the piped flow function, flow.ts lines 84-90: with
`intermediate` the first flow's result, `if (intermediate instanceof
Promise) return intermediate.then((value) => next(value)); return
next(intermediate)`.  A `.then` chain passes rejections through without
calling `next` and always yields a promise. -/
def Comp.seqThen (c : Comp β) (next : β → Comp γ) : Comp γ :=
  match c with
  | .sync b => next b
  | .syncErr e => .syncErr e
  | .async b => (next b).settle
  | .asyncErr e => .asyncErr e

/-- `pipe` from flow.ts lines 81-98: apply the first flow; if the
intermediate result is a promise, chain `next` with `.then` (so the piped
result is again a promise); otherwise call `next` directly.  The piped
flow's metadata is the merge of both operands' metadata. -/
def Flow.pipe (f : Flow α β) (g : Flow β γ) : Flow α γ where
  fn := fun x => (f.fn x).seqThen g.fn
  meta := mergeMetadata f.meta g.meta

/-- `identity` from flow.ts lines 128-129: `flow((x) => x)` with name
"identity" and `performance.pure = true`. -/
def identityF : Flow α α where
  fn := fun x => .sync x
  meta := some
    { name := some "identity"
      performance := some { pure := some true, memoizable := none }
      tags := none }

/-- `flow(x => x*2)` from Scenario A. -/
def doubleF : Flow Int Int where
  fn := fun x => .sync (x * 2)
  meta := none

/-- `flow(x => x+1)` from Scenario A. -/
def addOneF : Flow Int Int where
  fn := fun x => .sync (x + 1)
  meta := none

/-
  Immutable Context (ImmutableContext in the context package).

  Instance state is `data` (the local binding Map, modelled as a function
  from keys to optionally-present values), the `frozen` flag, and an
  optional `parent`.  The constructor always starts `frozen = false`;
  only `freeze()` writes an instance field, so each method is translated
  as a function of the receiver state, and `with` — which mutates nothing
  — additionally returns the receiver's (unchanged) post-state to make
  the non-mutation contract explicit.
-/

/-- An ImmutableContext value: local bindings, frozen flag, and the
parent chain (`root` for no parent, `child` linking to the parent). -/
inductive Ctx (κ ν : Type) where
  | root : (κ → Option ν) → Bool → Ctx κ ν
  | child : (κ → Option ν) → Bool → Ctx κ ν → Ctx κ ν

/-- The receiver's local binding map (`this.data`). -/
def Ctx.data : Ctx κ ν → κ → Option ν
  | .root d _ => d
  | .child d _ _ => d

/-- The receiver's frozen flag (`this.frozen`). -/
def Ctx.frozen : Ctx κ ν → Bool
  | .root _ f => f
  | .child _ f _ => f

/-- The receiver's parent, if any (`this.parent`). -/
def Ctx.parentC : Ctx κ ν → Option (Ctx κ ν)
  | .root _ _ => none
  | .child _ _ p => some p

/-- The ImmutableContext constructor: given initial data and an optional
parent, a context that is not frozen. -/
def Ctx.mkCtx (d : κ → Option ν) : Option (Ctx κ ν) → Ctx κ ν
  | none => .root d false
  | some p => .child d false p

/-- `get(key)`: return the local binding when the local Map has the key,
otherwise recurse into the parent (`this.parent?.get(key)`),
`undefined` at a parentless root. -/
def Ctx.get : Ctx κ ν → κ → Option ν
  | .root d _, k => d k
  | .child d _ p, k =>
    match d k with
    | some v => some v
    | none => p.get k

/-- A bindings record, as an entry list (`Object.entries` order; a JS
object cannot repeat a key, but the model allows any list and the later
entry wins, as `Map.set` does). -/
def bindingsSet [DecidableEq κ] (d : κ → Option ν) : List (κ × ν) → κ → Option ν :=
  fun b => b.foldl (fun m kv => fun k => if k = kv.1 then some kv.2 else m k) d

/-- The binding a record `b` provides for key `k` (the last entry for `k`,
if any). -/
def lookupB [DecidableEq κ] : List (κ × ν) → κ → Option ν
  | [], _ => none
  | kv :: rest, k =>
    match lookupB rest k with
    | some v => some v
    | none => if k = kv.1 then some kv.2 else none

/-- The message of the error thrown by `with` on a frozen context
(the FrozenContextError of the spec's error taxonomy). -/
def frozenContextError : String := "Cannot modify frozen context"

/-- `with(values)`: throw FrozenContextError when the receiver is frozen;
otherwise build `newData` as a copy of `this.data` overwritten by every
entry of `values`, and construct a new context with `newData` and
`this.parent`.  The first component is the receiver's post-state: the
method writes no instance field, so it is the receiver unchanged. -/
def Ctx.withM [DecidableEq κ] (c : Ctx κ ν) (values : List (κ × ν)) :
    Ctx κ ν × Except String (Ctx κ ν) :=
  (c,
    if c.frozen then .error frozenContextError
    else .ok (Ctx.mkCtx (bindingsSet c.data values) c.parentC))

/-- `fork()`: a new context with an empty Map and the receiver as parent. -/
def Ctx.fork (c : Ctx κ ν) : Ctx κ ν :=
  Ctx.mkCtx (fun _ => none) (some c)

/-- `freeze()`: set `this.frozen = true` and return the receiver; the
result is the receiver's post-state. -/
def Ctx.freeze : Ctx κ ν → Ctx κ ν
  | .root d _ => .root d true
  | .child d _ p => .child d true p

/-- The data maps along the chain from the receiver to the root. -/
def Ctx.chain : Ctx κ ν → List (κ → Option ν)
  | .root d _ => [d]
  | .child d _ p => d :: p.chain

/-- The first binding for `k` in a list of maps: the nearest enclosing
binding. -/
def firstHit {κ ν : Type} : List (κ → Option ν) → κ → Option ν
  | [], _ => none
  | d :: rest, k =>
    match d k with
    | some v => some v
    | none => firstHit rest k

/-
  Effect layer (packages/effects/src/index.ts).

  The EffectFlags enum lives in packages/flow/src/types.ts, which is not
  among the sources.  Modelled from the spec: the members None, Read,
  Write, IO, Network, Random, Time, Throw, Async are distinct OR-able
  powers of two, and the package's index test pins the numeric values
  used below.  Flags are plain `Nat` bit patterns.
-/

/-- Modelled from the spec: the None member of EffectFlags, value 0. -/
def EffectFlags.noneFlag : Nat := 0

/-- Modelled from the spec: the Read member of EffectFlags, value 1. -/
def EffectFlags.read : Nat := 1

/-- Modelled from the spec: the Write member of EffectFlags, value 2. -/
def EffectFlags.write : Nat := 2

/-- Modelled from the spec: the IO member of EffectFlags, value 4. -/
def EffectFlags.ioFlag : Nat := 4

/-- Modelled from the spec: the Network member of EffectFlags, value 8. -/
def EffectFlags.network : Nat := 8

/-- An Effect descriptor: `effect()` builds `{id, flags, handler, cleanup?}`.
None of the operations verified here ever invokes a handler or a cleanup —
`EffectInterpreter.run` only checks that a handler is registered for each
id, and `effectful` only ORs flags — so the model keeps the identifier
(the symbol, rendered through `String(...)` as `Symbol(description)`) and
the flag bits. -/
structure Effect where
  id : String
  flags : Nat
deriving DecidableEq, Repr

/-- An EffectFlow: a Flow (built by `flow(fn)` inside `effectful`, so with
no metadata) that additionally carries its Effects and a combined flag. -/
structure EffectFlow (α β : Type) where
  fn : α → Comp β
  effects : List Effect
  flags : Nat

/-- The underlying plain Flow of an EffectFlow: `effectful` wraps
`flow(fn)`, which carries no metadata. -/
def EffectFlow.toFlow (f : EffectFlow α β) : Flow α β where
  fn := f.fn
  meta := none

/-- `effectful(fn, effects, flags?)` from effects/index.ts lines 155-166:
the combined flag is the override when given, otherwise
`effects.reduce((acc, e) => acc | e.flags, 0)`.  (`new Set(effects)` keeps
insertion order; the model keeps the list.) -/
def effectful (fn : α → Comp β) (effects : List Effect) (flagsOverride : Option Nat) :
    EffectFlow α β where
  fn := fn
  effects := effects
  flags := flagsOverride.getD (effects.foldl (fun acc e => acc ||| e.flags) 0)

/-- The effects package's `pure(fn)`: `effectful(fn, [], EffectFlags.None)`. -/
def pureEffectFlow (fn : α → Comp β) : EffectFlow α β :=
  effectful fn [] (some EffectFlags.noneFlag)

/-- A Flow as seen by the flag inspection helpers: either a plain Flow
(no `flags` property, as produced by `flow()` and by `pipe`) or an
EffectFlow. -/
inductive AnyFlow (α β : Type) where
  | plain : Flow α β → AnyFlow α β
  | eff : EffectFlow α β → AnyFlow α β

/-- `hasEffect(flow, flag)`: false when the Flow has no `flags` property,
otherwise whether `flow.flags & flag` is nonzero. -/
def hasEffect : AnyFlow α β → Nat → Bool
  | .plain _, _ => false
  | .eff f, flag => (f.flags &&& flag) != 0

/-- `isPure(flow)`: false when the Flow has no `flags` property, otherwise
whether `flow.flags` equals `EffectFlags.None`. -/
def isPure : AnyFlow α β → Bool
  | .plain _ => false
  | .eff f => f.flags == EffectFlags.noneFlag

/-- The reduce callback of `combineEffects`: OR in the operand's flags
when it has a `flags` property, keep the accumulator otherwise. -/
def combineStep : Nat → AnyFlow α β → Nat
  | acc, .plain _ => acc
  | acc, .eff e => acc ||| e.flags

/-- `combineEffects(...flows)`: OR of the `flags` of every operand that
has a `flags` property, starting from `EffectFlags.None`. -/
def combineEffects (flows : List (AnyFlow α β)) : Nat :=
  flows.foldl combineStep EffectFlags.noneFlag

/-- The EffectInterpreter's handler registry: the set of Effect ids that
have a registered handler (`Map<symbol, handler>` keyed by id; the
handler functions themselves are never invoked by `run`). -/
structure EffectInterpreter where
  handlers : List String

/-- `register(effect)`: add (or overwrite) the handler for `effect.id`. -/
def EffectInterpreter.register (it : EffectInterpreter) (e : Effect) : EffectInterpreter :=
  ⟨e.id :: it.handlers⟩

/-- The message of the InterpretationError:
`No handler for effect:` followed by `String(effect.id)`, where `String`
on a symbol renders `Symbol(description)`. -/
def noHandlerMsg (id : String) : String :=
  "No handler for effect: Symbol(" ++ id ++ ")"

/-- The `for (const effect of flow.effects)` check in `run`: the first
Effect in iteration order whose id has no registered handler. -/
def findMissing (hs : List String) : List Effect → Option Effect
  | [] => none
  | e :: rest => if hs.contains e.id then findMissing hs rest else some e

/-- `EffectInterpreter.run(flow, input, ctx)` from effects/index.ts lines
224-234: throw an InterpretationError for the first Effect without a
registered handler, before ever calling the Flow; otherwise return
`flow(input)` — an `async` method, so the outcome is always a promise. -/
def EffectInterpreter.run (it : EffectInterpreter) (ef : EffectFlow α β) (x : α) : Comp β :=
  match findMissing it.handlers ef.effects with
  | some e => .asyncErr (noHandlerMsg e.id)
  | none => (ef.fn x).settle

/- Concrete sample values used by witnesses and counterexamples. -/

/-- Metadata carrying only the name "f". -/
def metaF : FlowMeta := ⟨some "f", none, none⟩

/-- Metadata carrying only the name "g". -/
def metaG : FlowMeta := ⟨some "g", none, none⟩

/-- A flow named "f". -/
def flowF : Flow Int Int := ⟨fun x => .sync x, some metaF⟩

/-- A flow named "g". -/
def flowG : Flow Int Int := ⟨fun x => .sync x, some metaG⟩

/-- A read-flagged Effect. -/
def readEffect : Effect := ⟨"read", EffectFlags.read⟩

/-- A write-flagged Effect. -/
def writeEffect : Effect := ⟨"write", EffectFlags.write⟩

/-- The log Effect of `Effects.log`: id "log", flag the IO bit. -/
def logEffect : Effect := ⟨"log", EffectFlags.ioFlag⟩

/-- An EffectFlow using the read Effect. -/
def efRead : EffectFlow Int Int := effectful (fun x => .sync x) [readEffect] none

/-- An EffectFlow using the write Effect. -/
def efWrite : EffectFlow Int Int := effectful (fun x => .sync (x + 1)) [writeEffect] none

/-- An EffectFlow using the log Effect. -/
def efLog : EffectFlow Int Int := effectful (fun x => .sync x) [logEffect] none

/-- An interpreter with no handlers registered (Scenario D). -/
def emptyInterp : EffectInterpreter := ⟨[]⟩

/-- A parentless context binding "a" to 1. -/
def ctxParent : Ctx String Int :=
  .root (fun k => if k = "a" then some 1 else none) false

/-- A child of `ctxParent` that re-binds "a" to 2. -/
def ctxChildA : Ctx String Int :=
  .child (fun k => if k = "a" then some 2 else none) false ctxParent

/-- Full metadata: name "p1", pure and memoizable, tag "t1". -/
def metaP1 : FlowMeta := ⟨some "p1", some ⟨some true, some true⟩, some ["t1"]⟩

/-- Full metadata: name "p2", impure but memoizable, tag "t2". -/
def metaP2 : FlowMeta := ⟨some "p2", some ⟨some false, some true⟩, some ["t2"]⟩

/-- A flow carrying `metaP1`. -/
def flowP1 : Flow Int Int := ⟨fun x => .sync x, some metaP1⟩

/-- A flow carrying `metaP2`. -/
def flowP2 : Flow Int Int := ⟨fun x => .sync x, some metaP2⟩

@[simp] theorem Comp.seqThen_sync (b : β) (k : β → Comp γ) :
    Comp.seqThen (.sync b) k = k b := rfl

@[simp] theorem Comp.seqThen_syncErr (e : String) (k : β → Comp γ) :
    Comp.seqThen (.syncErr e) k = .syncErr e := rfl

@[simp] theorem Comp.seqThen_async (b : β) (k : β → Comp γ) :
    Comp.seqThen (.async b) k = (k b).settle := rfl

@[simp] theorem Comp.seqThen_asyncErr (e : String) (k : β → Comp γ) :
    Comp.seqThen (.asyncErr e) k = .asyncErr e := rfl

@[simp] theorem Comp.settle_sync (b : β) : (Comp.sync b).settle = .async b := rfl

@[simp] theorem Comp.settle_syncErr (e : String) :
    (Comp.syncErr e : Comp β).settle = .asyncErr e := rfl

@[simp] theorem Comp.settle_async (b : β) : (Comp.async b).settle = .async b := rfl

@[simp] theorem Comp.settle_asyncErr (e : String) :
    (Comp.asyncErr e : Comp β).settle = .asyncErr e := rfl

@[simp] theorem Comp.settle_settle (c : Comp β) : c.settle.settle = c.settle := by
  cases c <;> rfl

@[simp] theorem Comp.result_settle (c : Comp β) : c.settle.result = c.result := by
  cases c <;> rfl

/-- Sequencing out of a promise-coerced result is the promise coercion of
the sequencing: `.then` on an already-settled chain. -/
theorem Comp.seqThen_settle (c : Comp β) (k : β → Comp γ) :
    c.settle.seqThen k = (c.seqThen k).settle := by
  cases c <;> simp

@[simp] theorem Flow.pipe_fn (f : Flow α β) (g : Flow β γ) (x : α) :
    (f.pipe g).fn x = (f.fn x).seqThen g.fn := rfl

/-- Claim C1: for Flows `f`, `g` and input `x`, `f.pipe(g)(x)` applies `f`
to `x`, awaits the result if pending, applies `g` to that result, awaiting
if pending — so the awaited outcome of the composite is the awaited
outcome of `g` at the awaited outcome of `f` (errors propagating); in
particular `flow(x => x*2).pipe(flow(x => x+1))(5)` returns `11`. -/
theorem pipe_applies_then_next (f : Flow α β) (g : Flow β γ) (x : α) :
    ((f.pipe g).fn x).result
      = ((f.fn x).result.bind fun b => (g.fn b).result)
    ∧ (doubleF.pipe addOneF).fn 5 = Comp.sync 11 := by
  refine ⟨?_, by decide⟩
  simp only [Flow.pipe_fn]
  cases f.fn x with
  | sync b => rfl
  | syncErr e => rfl
  | async b => exact Comp.result_settle (g.fn b)
  | asyncErr e => rfl

/-- Claim C2: pipe composition is associative — for Flows `f`, `g`, `h`
and any input `x`, `f.pipe(g).pipe(h)(x)` and `f.pipe(g.pipe(h))(x)`
produce the same result (the same value or error, with the same
synchronous/pending status). -/
theorem pipe_assoc (f : Flow α β) (g : Flow β γ) (h : Flow γ δ) (x : α) :
    ((f.pipe g).pipe h).fn x = (f.pipe (g.pipe h)).fn x := by
  simp only [Flow.pipe_fn]
  cases f.fn x <;> simp [Comp.seqThen_settle]

/-- Claim C3: the identity Flow is a left and right unit for pipe — for
every Flow `f` and input `x`, `identity().pipe(f)(x) = f(x) =
f.pipe(identity())(x)`. -/
theorem pipe_identity_laws (f : Flow α β) (x : α) :
    (identityF.pipe f).fn x = f.fn x
    ∧ (f.pipe identityF).fn x = f.fn x := by
  refine ⟨rfl, ?_⟩
  simp only [Flow.pipe_fn]
  cases f.fn x <;> simp [identityF]

@[simp] theorem Ctx.frozen_freeze (c : Ctx κ ν) : c.freeze.frozen = true := by
  cases c <;> rfl

@[simp] theorem Ctx.data_freeze (c : Ctx κ ν) : c.freeze.data = c.data := by
  cases c <;> rfl

@[simp] theorem Ctx.parentC_freeze (c : Ctx κ ν) : c.freeze.parentC = c.parentC := by
  cases c <;> rfl

@[simp] theorem Ctx.get_freeze (c : Ctx κ ν) (k : κ) : c.freeze.get k = c.get k := by
  cases c <;> rfl

/-- Evaluating the updated Map: the record's own (last-wins) binding when
present, otherwise the original map. -/
theorem bindingsSet_apply [DecidableEq κ] (d : κ → Option ν) (b : List (κ × ν)) (k : κ) :
    bindingsSet d b k = (lookupB b k <|> d k) := by
  induction b generalizing d with
  | nil => rfl
  | cons kv rest ih =>
    show bindingsSet (fun k => if k = kv.1 then some kv.2 else d k) rest k = _
    rw [ih]
    show _ = (lookupB (kv :: rest) k <|> d k)
    cases h : lookupB rest k with
    | some v => simp [lookupB, h]
    | none =>
      by_cases hk : k = kv.1
      · subst hk
        simp [lookupB, h]
      · simp [lookupB, h, hk]

/-- Lookup through a context chains local data before the parent. -/
theorem Ctx.get_eq_firstHit (c : Ctx κ ν) (k : κ) :
    c.get k = firstHit c.chain k := by
  induction c with
  | root d f =>
    show d k = firstHit [d] k
    cases h : d k <;> simp [firstHit, h]
  | child d f p ih =>
    show (match d k with | some v => some v | none => p.get k) = _
    cases h : d k with
    | some v => simp [firstHit, h]
    | none => simp [firstHit, h, ih]

/-- The lookups of the context built by `with`: the record's own binding
when present, otherwise the receiver's lookup (the new context shares the
receiver's parent, and its local Map is the overwritten copy). -/
theorem Ctx.get_withNew [DecidableEq κ] (c : Ctx κ ν) (b : List (κ × ν)) (k : κ) :
    (Ctx.mkCtx (bindingsSet c.data b) c.parentC).get k = (lookupB b k <|> c.get k) := by
  cases c with
  | root d f =>
    show bindingsSet d b k = _
    rw [bindingsSet_apply]
    rfl
  | child d f p =>
    show (match bindingsSet d b k with | some v => some v | none => p.get k) = _
    rw [bindingsSet_apply]
    cases lookupB b k with
    | some v => rfl
    | none => rfl

/-- Claim C4: for every Context `c` and bindings record `b`, `c.with(b)`
returns a new Context whose bindings are the union of `c`'s and `b` (with
`b` winning on collisions, observed through `get`), and leaves `c` itself
unchanged — the receiver's post-state equals its pre-state, so every
`c.get(k)` is as before the call. -/
theorem ctx_with_union [DecidableEq κ] (c : Ctx κ ν) (b : List (κ × ν))
    (hc : c.frozen = false) :
    (c.withM b).1 = c
    ∧ ((c.withM b).2).isOk = true
    ∧ ∀ c2, (c.withM b).2 = Except.ok c2 →
        ∀ k, c2.get k = (lookupB b k <|> c.get k) := by
  refine ⟨rfl, ?_, ?_⟩
  · have h : (c.withM b).2 = Except.ok (Ctx.mkCtx (bindingsSet c.data b) c.parentC) := by
      simp [Ctx.withM, hc]
    rw [h]
    rfl
  · intro c2 h2 k
    simp only [Ctx.withM, hc, Bool.false_eq_true, if_false, Except.ok.injEq] at h2
    subst h2
    exact Ctx.get_withNew c b k

/-- Witness for C4 at `ctxParent` and the record `[("b", 2)]`. -/
theorem ctx_with_union_witness :
    ctxParent.frozen = false
    ∧ (ctxParent.withM [("b", (2 : Int))]).1 = ctxParent
    ∧ ((ctxParent.withM [("b", (2 : Int))]).2).isOk = true
    ∧ (Ctx.root (bindingsSet ctxParent.data [("b", (2 : Int))]) false).get "b"
        = (lookupB [("b", (2 : Int))] "b" <|> ctxParent.get "b")
    ∧ (Ctx.root (bindingsSet ctxParent.data [("b", (2 : Int))]) false).get "a" = some 1 :=
  ⟨rfl,
   (ctx_with_union ctxParent [("b", (2 : Int))] rfl).1,
   (ctx_with_union ctxParent [("b", (2 : Int))] rfl).2.1,
   (ctx_with_union ctxParent [("b", (2 : Int))] rfl).2.2 _ rfl "b",
   by decide⟩

/-- Claim C5: `c.with({k: v}).get(k)` returns `v`; lookup without a local
binding recurses into the parent chain and returns the nearest binding —
`get` equals the first hit along the chain of data maps — and a child
binding shadows any parent binding of the same key. -/
theorem ctx_get_shadowing [DecidableEq κ] (c : Ctx κ ν) (k : κ) (v : ν)
    (hc : c.frozen = false) :
    (∀ c2, (c.withM [(k, v)]).2 = Except.ok c2 → c2.get k = some v)
    ∧ c.get k = firstHit c.chain k
    ∧ (∀ (d : κ → Option ν) (fr : Bool) (p : Ctx κ ν),
        d k = some v → (Ctx.child d fr p).get k = some v)
    ∧ (∀ (d : κ → Option ν) (fr : Bool) (p : Ctx κ ν),
        d k = none → (Ctx.child d fr p).get k = p.get k) := by
  refine ⟨?_, Ctx.get_eq_firstHit c k, ?_, ?_⟩
  · intro c2 h2
    have h := (ctx_with_union c [(k, v)] hc).2.2 c2 h2 k
    have hk : lookupB [(k, v)] k = some v := by simp [lookupB]
    rw [h, hk]
    simp
  · intro d fr p hd
    show (match d k with | some v => some v | none => p.get k) = some v
    rw [hd]
  · intro d fr p hd
    show (match d k with | some v => some v | none => p.get k) = p.get k
    rw [hd]

/-- Witness for C5: re-binding "a" over `ctxParent` yields the new value,
and the child `ctxChildA` shadows the parent's binding of "a". -/
theorem ctx_get_shadowing_witness :
    (Ctx.root (bindingsSet ctxParent.data [("a", (2 : Int))]) false).get "a" = some 2
    ∧ ctxParent.get "a" = firstHit ctxParent.chain "a"
    ∧ ctxChildA.get "a" = some 2
    ∧ ctxParent.get "a" = some 1 := by
  have h := ctx_get_shadowing ctxParent "a" (2 : Int) rfl
  exact ⟨h.1 _ rfl, h.2.1,
    h.2.2.1 (fun k => if k = "a" then some 2 else none) false ctxParent (by decide),
    by decide⟩

/-- Claim C6: after `c.freeze()` every `with` call fails with
FrozenContextError while `get` and `fork` still succeed (with unchanged
lookups; `fork` yields an open empty child of the frozen receiver);
`freeze` marks only the receiver — its data and parent are untouched —
returns that same state, and no operation un-freezes it (`with` leaves
the receiver frozen and `freeze` is idempotent). -/
theorem ctx_freeze_enforcement [DecidableEq κ] (c : Ctx κ ν) :
    (∀ b : List (κ × ν), ((c.freeze).withM b).2 = Except.error frozenContextError)
    ∧ (∀ b : List (κ × ν), ((c.freeze).withM b).1 = c.freeze)
    ∧ (∀ k, c.freeze.get k = c.get k)
    ∧ c.freeze.fork = Ctx.child (fun _ => none) false c.freeze
    ∧ c.freeze.data = c.data
    ∧ c.freeze.parentC = c.parentC
    ∧ c.freeze.frozen = true
    ∧ c.freeze.freeze = c.freeze := by
  refine ⟨?_, fun b => rfl, fun k => Ctx.get_freeze c k, rfl,
    Ctx.data_freeze c, Ctx.parentC_freeze c, Ctx.frozen_freeze c, ?_⟩
  · intro b
    simp [Ctx.withM]
  · cases c <;> rfl

/-- Claim C10: the frozen state is per-instance and not inherited — after
`c.freeze()`, `c.fork()` is a new empty child that is open: `with`
succeeds on it, and the resulting context's lookups for keys the record
does not bind fall back to `c`'s bindings. -/
theorem ctx_fork_open_after_freeze [DecidableEq κ] (c : Ctx κ ν) (b : List (κ × ν)) :
    c.freeze.fork.frozen = false
    ∧ (∀ k, c.freeze.fork.data k = none)
    ∧ c.freeze.fork.parentC = some c.freeze
    ∧ ((c.freeze.fork.withM b).2).isOk = true
    ∧ ∀ c2, (c.freeze.fork.withM b).2 = Except.ok c2 →
        ∀ k, lookupB b k = none → c2.get k = c.get k := by
  refine ⟨rfl, fun k => rfl, rfl, rfl, ?_⟩
  intro c2 h2 k hk
  have h2' : Except.ok (Ctx.mkCtx (bindingsSet (c.freeze.fork).data b)
      (c.freeze.fork).parentC) = Except.ok c2 := h2
  have h2'' := Except.ok.inj h2'
  subst h2''
  rw [Ctx.get_withNew, hk]
  show c.freeze.fork.get k = c.get k
  show c.freeze.get k = c.get k
  exact Ctx.get_freeze c k

/-- Witness for C10 at `ctxParent`: the forked child of the frozen parent
is open, `with {b: 2}` succeeds on it, and "a" still resolves to the
parent's binding. -/
theorem ctx_fork_open_witness :
    ctxParent.freeze.fork.frozen = false
    ∧ ctxParent.freeze.fork.parentC = some ctxParent.freeze
    ∧ ((ctxParent.freeze.fork.withM [("b", (2 : Int))]).2).isOk = true
    ∧ (Ctx.child (bindingsSet (fun _ => none) [("b", (2 : Int))]) false
        ctxParent.freeze).get "a" = some 1 := by
  have h := ctx_fork_open_after_freeze ctxParent [("b", (2 : Int))]
  refine ⟨h.1, h.2.2.1, h.2.2.2.1, ?_⟩
  have h5 := h.2.2.2.2
    (Ctx.child (bindingsSet (fun _ => none) [("b", (2 : Int))]) false ctxParent.freeze)
    rfl "a" (by decide)
  exact h5.trans (by decide)

theorem land_lor_distrib (a b c : Nat) : a &&& (b ||| c) = (a &&& b) ||| (a &&& c) := by
  apply Nat.eq_of_testBit_eq
  intro i
  rw [Nat.testBit_and, Nat.testBit_or, Nat.testBit_or, Nat.testBit_and, Nat.testBit_and]
  cases a.testBit i <;> cases b.testBit i <;> cases c.testBit i <;> rfl

theorem lor_land_absorb (a b : Nat) : a ||| (a &&& b) = a := by
  apply Nat.eq_of_testBit_eq
  intro i
  rw [Nat.testBit_or, Nat.testBit_and]
  cases a.testBit i <;> cases b.testBit i <;> rfl

/-- ORing more flags into the accumulator preserves any flag set already
contained in it. -/
theorem combineStep_foldl_subset (fs : List (AnyFlow α β)) (a : Nat) :
    ∀ acc, a &&& acc = a → a &&& (fs.foldl combineStep acc) = a := by
  induction fs with
  | nil => exact fun acc h => h
  | cons f rest ih =>
    intro acc h
    show a &&& (rest.foldl combineStep (combineStep acc f)) = a
    apply ih
    cases f with
    | plain p => exact h
    | eff e =>
      show a &&& (acc ||| e.flags) = a
      rw [land_lor_distrib, h, lor_land_absorb]

theorem mem_foldl_subset (ef : EffectFlow α β) :
    ∀ (fs : List (AnyFlow α β)) (acc : Nat), AnyFlow.eff ef ∈ fs →
      ef.flags &&& (fs.foldl combineStep acc) = ef.flags := by
  intro fs
  induction fs with
  | nil =>
    intro acc h
    exact absurd h (List.not_mem_nil _)
  | cons f rest ih =>
    intro acc h
    rcases List.mem_cons.mp h with heq | hrest
    · rw [← heq]
      show ef.flags &&& (rest.foldl combineStep (acc ||| ef.flags)) = ef.flags
      apply combineStep_foldl_subset
      rw [land_lor_distrib, Nat.and_self, Nat.lor_comm]
      exact lor_land_absorb _ _
    · exact ih (combineStep acc f) hrest

/-- Every member EffectFlow's flag set is contained in the combined OR. -/
theorem mem_flags_subset (fs : List (AnyFlow α β)) (ef : EffectFlow α β)
    (hmem : AnyFlow.eff ef ∈ fs) :
    ef.flags &&& combineEffects fs = ef.flags :=
  mem_foldl_subset ef fs EffectFlags.noneFlag hmem

/-- Counterexample to C7 as stated: composing the EffectFlows `efRead`
(flag Read = 1) and `efWrite` (flag Write = 2) with `pipe` — the code's
composition operator — yields a plain Flow with no `flags` property, so
the composite's combined flag is not the OR (1 ||| 2 = 3) of the
components' flags and IS less than a component's flag: `hasEffect` on the
composite denies the Read effect that component `efRead` carries, and the
inspection helpers treat the composite as having no effect information at
all. -/
theorem pipe_drops_effect_flags :
    efRead.flags = EffectFlags.read
    ∧ efWrite.flags = EffectFlags.write
    ∧ hasEffect (AnyFlow.eff efRead) EffectFlags.read = true
    ∧ hasEffect (AnyFlow.plain (efRead.toFlow.pipe efWrite.toFlow)) EffectFlags.read = false
    ∧ isPure (AnyFlow.plain (efRead.toFlow.pipe efWrite.toFlow)) = false
    ∧ combineEffects [AnyFlow.eff efRead, AnyFlow.eff efWrite] = 3 := by
  refine ⟨rfl, rfl, rfl, rfl, rfl, rfl⟩

/-- Claim C7 as amended: for compositions assembled through the effect
layer itself, the combined flag is the OR of every component's flag —
`effectful(fn, effects)` without an override ORs the listed Effects'
flags, `combineEffects` contains (bitwise and numerically dominates)
every component's flag, and a pure component (flag None = 0) leaves the
combination unchanged.  `pipe` does not produce an EffectFlow: its result
carries no flags (see the counterexample). -/
theorem effect_flag_or_monotone (fn : α → Comp β) (es : List Effect)
    (fs : List (AnyFlow α β)) (ef : EffectFlow α β) (g : α → Comp β)
    (hmem : AnyFlow.eff ef ∈ fs) :
    (effectful fn es none).flags = es.foldl (fun acc e => acc ||| e.flags) 0
    ∧ ef.flags &&& combineEffects fs = ef.flags
    ∧ ef.flags ≤ combineEffects fs
    ∧ combineEffects (fs ++ [AnyFlow.eff (pureEffectFlow g)]) = combineEffects fs := by
  refine ⟨rfl, mem_flags_subset fs ef hmem, ?_, ?_⟩
  · have h := mem_flags_subset fs ef hmem
    calc ef.flags = ef.flags &&& combineEffects fs := h.symm
      _ ≤ combineEffects fs := Nat.and_le_right
  · show (fs ++ [AnyFlow.eff (pureEffectFlow g)]).foldl combineStep EffectFlags.noneFlag
      = combineEffects fs
    rw [List.foldl_append]
    show (fs.foldl combineStep EffectFlags.noneFlag) ||| 0 = combineEffects fs
    rw [Nat.or_zero]
    rfl

/-- Witness for the amended C7 at `efRead`/`efWrite`. -/
theorem effect_flag_or_monotone_witness :
    (effectful (fun x : Int => Comp.sync x) [readEffect, writeEffect] none).flags
      = [readEffect, writeEffect].foldl (fun acc e => acc ||| e.flags) 0
    ∧ efRead.flags &&& combineEffects [AnyFlow.eff efRead, AnyFlow.eff efWrite] = efRead.flags
    ∧ efRead.flags ≤ combineEffects [AnyFlow.eff efRead, AnyFlow.eff efWrite]
    ∧ combineEffects ([AnyFlow.eff efRead, AnyFlow.eff efWrite]
        ++ [AnyFlow.eff (pureEffectFlow (fun x : Int => Comp.sync x))])
      = combineEffects [AnyFlow.eff efRead, AnyFlow.eff efWrite] :=
  effect_flag_or_monotone (fun x => Comp.sync x) [readEffect, writeEffect]
    [AnyFlow.eff efRead, AnyFlow.eff efWrite] efRead (fun x => Comp.sync x)
    (List.Mem.head _)

theorem findMissing_some_spec (hs : List String) (l : List Effect) (e : Effect)
    (h : findMissing hs l = some e) : e ∈ l ∧ hs.contains e.id = false := by
  induction l with
  | nil => exact absurd h (by simp [findMissing])
  | cons f rest ih =>
    by_cases hc : hs.contains f.id = true
    · have h2 : findMissing hs rest = some e := by
        rw [← h]
        show findMissing hs rest = if hs.contains f.id then findMissing hs rest else some f
        rw [if_pos hc]
      obtain ⟨hm, hcon⟩ := ih h2
      exact ⟨List.mem_cons_of_mem f hm, hcon⟩
    · have h2 : some f = some e := by
        rw [← h]
        show some f = if hs.contains f.id then findMissing hs rest else some f
        rw [if_neg hc]
      rw [← Option.some.inj h2]
      exact ⟨List.mem_cons_self f rest, by simpa using hc⟩

theorem findMissing_none_iff (hs : List String) (l : List Effect) :
    findMissing hs l = none ↔ ∀ e ∈ l, hs.contains e.id = true := by
  induction l with
  | nil => simp [findMissing]
  | cons f rest ih =>
    by_cases hc : hs.contains f.id = true
    · rw [show findMissing hs (f :: rest) = findMissing hs rest from by
        show (if hs.contains f.id then findMissing hs rest else some f) = _
        rw [if_pos hc]]
      rw [ih]
      constructor
      · intro hall e he
        rcases List.mem_cons.mp he with heq | hmem
        · rw [heq]; exact hc
        · exact hall e hmem
      · intro hall e he
        exact hall e (List.mem_cons_of_mem f he)
    · rw [show findMissing hs (f :: rest) = some f from by
        show (if hs.contains f.id then findMissing hs rest else some f) = _
        rw [if_neg hc]]
      constructor
      · intro hfalse
        exact absurd hfalse (by simp)
      · intro hall
        exact absurd (hall f (List.mem_cons_self f rest)) hc

/-- Claim C8: `EffectInterpreter.run(ef, x, ctx)` fails with an
InterpretationError naming the missing Effect id whenever some Effect of
`ef.effects` lacks a registered handler — and does so without invoking
`ef`: the outcome is the same for any call behavior in place of `ef.fn` —
and otherwise returns the result of `ef`'s own call behavior `ef(x)`
(as the settled promise an `async` method yields). -/
theorem interpreter_run_fail_fast (it : EffectInterpreter) (ef : EffectFlow α β) (x : α) :
    (∀ e, findMissing it.handlers ef.effects = some e →
        it.run ef x = Comp.asyncErr (noHandlerMsg e.id)
        ∧ (∀ g : α → Comp β,
            it.run { ef with fn := g } x = Comp.asyncErr (noHandlerMsg e.id))
        ∧ e ∈ ef.effects ∧ it.handlers.contains e.id = false)
    ∧ ((∀ e ∈ ef.effects, it.handlers.contains e.id = true) →
        it.run ef x = (ef.fn x).settle)
    ∧ ((∃ e ∈ ef.effects, it.handlers.contains e.id = false)
        ↔ ∃ e, findMissing it.handlers ef.effects = some e) := by
  refine ⟨?_, ?_, ?_⟩
  · intro e he
    obtain ⟨hm, hc⟩ := findMissing_some_spec _ _ _ he
    refine ⟨?_, ?_, hm, hc⟩
    · show (match findMissing it.handlers ef.effects with
        | some e => Comp.asyncErr (noHandlerMsg e.id)
        | none => (ef.fn x).settle) = _
      rw [he]
    · intro g
      show (match findMissing it.handlers ef.effects with
        | some e => Comp.asyncErr (noHandlerMsg e.id)
        | none => (g x).settle) = _
      rw [he]
  · intro hall
    have hn : findMissing it.handlers ef.effects = none := (findMissing_none_iff _ _).mpr hall
    show (match findMissing it.handlers ef.effects with
      | some e => Comp.asyncErr (noHandlerMsg e.id)
      | none => (ef.fn x).settle) = _
    rw [hn]
  · constructor
    · rintro ⟨e, he, hc⟩
      cases hf : findMissing it.handlers ef.effects with
      | some e2 => exact ⟨e2, rfl⟩
      | none =>
        have ht := (findMissing_none_iff _ _).mp hf e he
        rw [ht] at hc
        exact Bool.noConfusion hc
    · rintro ⟨e, he⟩
      obtain ⟨hm, hc⟩ := findMissing_some_spec _ _ _ he
      exact ⟨e, hm, hc⟩

/-- Witness for C8, Scenario D: an interpreter with no handlers rejects
`efLog` with the error naming the log Effect's id, and does so
independently of the flow's call behavior. -/
theorem interpreter_run_fail_fast_witness :
    emptyInterp.run efLog 5 = Comp.asyncErr "No handler for effect: Symbol(log)"
    ∧ emptyInterp.run
        (⟨fun x => Comp.sync (x * 100), efLog.effects, efLog.flags⟩ : EffectFlow Int Int) 5
        = Comp.asyncErr "No handler for effect: Symbol(log)" := by
  have h := (interpreter_run_fail_fast emptyInterp efLog (5 : Int)).1 logEffect rfl
  exact ⟨h.1, h.2.1 (fun x => Comp.sync (x * 100))⟩

/-- Counterexample to C9 as stated: piping `flowF` (metadata name "f")
into `flowG` (metadata name "g") produces metadata whose name is exactly
"g" — the second operand's name, taken by the object spread — into which
the first operand's name "f" does not occur at all, so the names are not
concatenated with a composition marker. -/
theorem pipe_name_not_concatenated :
    ((flowF.pipe flowG).meta.bind FlowMeta.name) = some "g"
    ∧ ¬ ("f".data <:+: "g".data) := by
  exact ⟨rfl, by decide⟩

/-- Claim C9 as amended: when both piped Flows carry metadata, the result
carries the pointwise merge — purity and memoizability are each the AND
of the two flags whenever both operands define them, the tag lists are
concatenated (their element set is the union), and the result's name is
the second operand's name when present, otherwise the first's (no
composition marker is inserted). -/
theorem merge_metadata_pointwise (f : Flow α β) (g : Flow β γ)
    (m1 m2 : FlowMeta) (h1 : f.meta = some m1) (h2 : g.meta = some m2) :
    ((f.pipe g).meta.bind FlowMeta.name) = (m2.name <|> m1.name)
    ∧ (∀ p1 p2 a b, m1.performance = some p1 → m2.performance = some p2 →
        p1.pure = some a → p2.pure = some b →
        (((f.pipe g).meta.bind FlowMeta.performance).bind Performance.pure)
          = some (a && b))
    ∧ (∀ p1 p2 a b, m1.performance = some p1 → m2.performance = some p2 →
        p1.memoizable = some a → p2.memoizable = some b →
        (((f.pipe g).meta.bind FlowMeta.performance).bind Performance.memoizable)
          = some (a && b))
    ∧ (∀ t1 t2, m1.tags = some t1 → m2.tags = some t2 →
        ((f.pipe g).meta.bind FlowMeta.tags) = some (t1 ++ t2)
        ∧ ∀ t, t ∈ t1 ++ t2 ↔ (t ∈ t1 ∨ t ∈ t2)) := by
  have hm : (f.pipe g).meta = mergeMetadata (some m1) (some m2) := by
    show mergeMetadata f.meta g.meta = _
    rw [h1, h2]
  refine ⟨?_, ?_, ?_, ?_⟩
  · rw [hm]
    by_cases hp : (m1.performance.isSome || m2.performance.isSome) = true <;>
      by_cases ht : (m1.tags.isSome || m2.tags.isSome) = true <;>
        simp [mergeMetadata, hp, ht]
  · intro p1 p2 a b hp1 hp2 ha hb
    rw [hm]
    have hp : (m1.performance.isSome || m2.performance.isSome) = true := by
      simp [hp1]
    by_cases ht : (m1.tags.isSome || m2.tags.isSome) = true <;>
      simp [mergeMetadata, hp, ht, hp1, hp2, ha, hb]
  · intro p1 p2 a b hp1 hp2 ha hb
    rw [hm]
    have hp : (m1.performance.isSome || m2.performance.isSome) = true := by
      simp [hp1]
    by_cases ht : (m1.tags.isSome || m2.tags.isSome) = true <;>
      simp [mergeMetadata, hp, ht, hp1, hp2, ha, hb]
  · intro t1 t2 ht1 ht2
    have ht : (m1.tags.isSome || m2.tags.isSome) = true := by
      simp [ht1]
    refine ⟨?_, fun t => List.mem_append⟩
    rw [hm]
    by_cases hp : (m1.performance.isSome || m2.performance.isSome) = true <;>
      simp [mergeMetadata, hp, ht, ht1, ht2]

/-- Witness for the amended C9 at `flowP1`/`flowP2`: name "p2" wins, pure
becomes `true AND false = false`, memoizable stays true, and the tags
concatenate. -/
theorem merge_metadata_pointwise_witness :
    ((flowP1.pipe flowP2).meta.bind FlowMeta.name) = (metaP2.name <|> metaP1.name)
    ∧ (((flowP1.pipe flowP2).meta.bind FlowMeta.performance).bind Performance.pure)
        = some false
    ∧ (((flowP1.pipe flowP2).meta.bind FlowMeta.performance).bind Performance.memoizable)
        = some true
    ∧ ((flowP1.pipe flowP2).meta.bind FlowMeta.tags) = some (["t1"] ++ ["t2"]) := by
  have h := merge_metadata_pointwise flowP1 flowP2 metaP1 metaP2 rfl rfl
  refine ⟨h.1, ?_, ?_, (h.2.2.2 ["t1"] ["t2"] rfl rfl).1⟩
  · have hx := h.2.1 ⟨some true, some true⟩ ⟨some false, some true⟩ true false rfl rfl rfl rfl
    simpa using hx
  · have hx := h.2.2.1 ⟨some true, some true⟩ ⟨some false, some true⟩ true true rfl rfl rfl rfl
    simpa using hx

end Holon
